import Mathlib

/-
Shallow embedding of the Lag Computation Core of kafkesc/kcl (kommitted),
translated from src/lag_register/register.rs, src/cluster_status/emitter.rs
and src/consumer_groups/emitter.rs.

HashMaps are modelled as association lists (`List (key × value)`): lookup is
first-match, `entry().and_modify().or_insert_with()` modifies in place or
appends, `retain` is `filter`, and HashMap iteration order is the list order.
UTC timestamps and chrono Durations are modelled as integers (seconds).
The PartitionOffsetsRegister and the ConsumerGroupsRegister live outside the
analysed sources; they enter as oracle records of query functions
(`PoReg`, `CGRegisterView`) matching the calls the register makes on them.
-/

namespace Kcl

/-- Association-list lookup, first match wins (models HashMap.get). -/
def alookup {α β : Type} [DecidableEq α] : List (α × β) → α → Option β
  | [], _ => none
  | (k, v) :: rest, a => if k = a then some v else alookup rest a

/-- Modify the value at a key in place when present; no-op when absent
(models HashMap.get_mut followed by a field assignment). -/
def amodify {α β : Type} [DecidableEq α] (l : List (α × β)) (a : α) (f : β → β) :
    List (α × β) :=
  l.map (fun p => if p.1 = a then (p.1, f p.2) else p)

/-- Insert-or-overwrite at a key (models HashMap.insert / collect, where a
later pair with the same key wins). -/
def ainsert {α β : Type} [DecidableEq α] (l : List (α × β)) (a : α) (b : β) :
    List (α × β) :=
  if (alookup l a).isSome then amodify l a (fun _ => b) else l ++ [(a, b)]

/-- Upsert (models HashMap.entry(k).and_modify(f).or_insert_with(d)). -/
def aupsert {α β : Type} [DecidableEq α] (l : List (α × β)) (a : α) (f : β → β)
    (d : β) : List (α × β) :=
  if (alookup l a).isSome then amodify l a f else l ++ [(a, d)]

/-- Log levels of the `log` crate macros used in the sources. -/
inductive LogLevel where
  | trace
  | debug
  | info
  | warn
  | error
deriving DecidableEq, Repr

/-- One emitted log line: level plus a stable tag for the call site. -/
structure Log where
  level : LogLevel
  msg : String
deriving DecidableEq, Repr

/-- Topic-partition pair (kafka_types::TopicPartition). -/
structure TopicPartition where
  topic : String
  partition : Nat
deriving DecidableEq, Repr

/-- Consumer group member (kafka_types::Member). -/
structure Member where
  id : String
  client_id : String
  client_host : String
deriving DecidableEq, Repr

/-- Consumer group descriptor (kafka_types::Group); the register only copies
it around, never inspects it. -/
structure Group where
  name : String
  state : String
  protocol : String
  protocol_type : String
deriving DecidableEq, Repr

instance : Inhabited Group := ⟨⟨"", "", "", ""⟩⟩

/-- Lag of a consumer group on one topic partition (register.rs, struct Lag).
Timestamps are UTC instants modelled as integer seconds; `time_lag` is a
chrono Duration modelled as an integer. -/
structure Lag where
  offset : Nat
  offset_timestamp : Int
  timestamp : Int
  offset_lag : Nat
  time_lag : Int
deriving DecidableEq, Repr

/-- Staleness threshold LAG_STALE_AFTER = Duration::seconds(5). -/
def LAG_STALE_AFTER : Int := 5

/-- Lag::is_stale: `Utc::now() - self.offset_timestamp > LAG_STALE_AFTER`,
with the current instant passed explicitly. -/
def Lag.is_stale (now : Int) (l : Lag) : Bool :=
  now - l.offset_timestamp > LAG_STALE_AFTER

/-- Pair of an optional Lag and an optional owning Member
(register.rs, struct LagWithOwner). -/
structure LagWithOwner where
  lag : Option Lag
  owner : Option Member
deriving DecidableEq, Repr

/-- Group together with its lag map (register.rs, struct GroupWithLag). -/
structure GroupWithLag where
  group : Group
  lag_by_topic_partition : List (TopicPartition × LagWithOwner)
deriving DecidableEq, Repr

/-- The LagRegister state: the `lag_by_group` map. -/
abbrev Register := List (String × GroupWithLag)

/-- Reserved group name of the internal consumer-offsets consumer.
Modelled from the spec: `KOMMITTED_CONSUMER_OFFSETS_CONSUMER` lives in
src/constants.rs, which is not among the analysed sources; the spec only
requires it to be a fixed reserved name. -/
def KOMMITTED_CONSUMER_OFFSETS_CONSUMER : String :=
  "__kommitted-konsumer-offsets"

/-- Latest tracked watermark sample returned by
PartitionOffsetsRegister::get_latest_tracked_offset. -/
structure LatestOffset where
  offset : Nat
  atTime : Int
deriving DecidableEq, Repr

/-- Oracle view of the PartitionOffsetsRegister: the three query functions
the lag register calls on it (partition_offsets is outside the analysed
sources). -/
structure PoReg where
  get_latest_tracked_offset : TopicPartition → Except String LatestOffset
  estimate_offset_lag : TopicPartition → Nat → Except String Nat
  estimate_time_lag : TopicPartition → Nat → Int → Except String Int

/-- Parsed OffsetCommit event (konsumer_offsets crate), with the fields the
register reads; `offset as u64` and `partition as u32` already applied. -/
structure OffsetCommit where
  group : String
  topic : String
  partition : Nat
  offset : Nat
  commit_timestamp : Int
deriving DecidableEq, Repr

/-- One member record of a GroupMetadata event, with
`assignment.assigned_topic_partitions` and
`subscription.owned_topic_partitions` already expanded by
TopicPartition::vec_from into flat lists. -/
structure GMMember where
  id : String
  client_id : String
  client_host : String
  assigned_topic_partitions : List TopicPartition
  owned_topic_partitions : List TopicPartition
deriving DecidableEq, Repr

/-- Parsed GroupMetadata event (konsumer_offsets crate). -/
structure GroupMetadata where
  group : String
  members : List GMMember
deriving DecidableEq, Repr

/-- Member together with its assignment, as stored by the
ConsumerGroupsRegister (consumer_groups::MemberWithAssignment). -/
structure MemberWithAssignment where
  member : Member
  assignment : List TopicPartition
deriving DecidableEq, Repr

/-- Group with members, as returned by ConsumerGroupsRegister::get_group. -/
structure GroupWithMembers where
  group : Group
  members : List (String × MemberWithAssignment)
deriving DecidableEq, Repr

/-- Oracle view of the ConsumerGroupsRegister: the queries
process_consumer_groups makes on it (get_groups and get_group). -/
structure CGRegisterView where
  known_groups : List String
  get_group : String → Option GroupWithMembers

/-- Log line of process_offset_commit's unknown-group warn! call. -/
def warnUnknownGroupOC : Log :=
  ⟨.warn, "Received OffsetCommit about unknown Group: ignoring"⟩

/-- Log line of process_group_metadata's unknown-group warn! call. -/
def warnUnknownGroupGM : Log :=
  ⟨.warn, "Received GroupMetadata about unknown Group: ignoring"⟩

/-- Log line of the debug! call for an empty-members GroupMetadata. -/
def debugNoMembersGM : Log :=
  ⟨.debug, "Ignoring GroupMetadata: no Members"⟩

/-- Log line of the debug! call when estimate_offset_lag fails. -/
def debugOffsetLagFail : Log :=
  ⟨.debug, "Failed to estimate Offset Lag"⟩

/-- Log line of the debug! call when estimate_time_lag fails. -/
def debugTimeLagFail : Log :=
  ⟨.debug, "Failed to estimate Time Lag"⟩

/-- Log line of the error! call when get_latest_tracked_offset fails. -/
def errorLatestOffsetFail : Log :=
  ⟨.error, "Failed to get latest tracked offset for Partition"⟩

/-- Builds the Lag struct of process_offset_commit (register.rs lines
325-348): offset and both timestamps from the event, lags from the
PartitionOffsetsRegister estimators with 0 / zero on failure (each failure
logged at debug). -/
def buildLag (po : PoReg) (oc : OffsetCommit) (tp : TopicPartition) :
    Lag × List Log :=
  let olRes :=
    match po.estimate_offset_lag tp oc.offset with
    | .ok v => (v, ([] : List Log))
    | .error _ => (0, [debugOffsetLagFail])
  let tlRes :=
    match po.estimate_time_lag tp oc.offset oc.commit_timestamp with
    | .ok v => (v, ([] : List Log))
    | .error _ => (0, [debugTimeLagFail])
  (⟨oc.offset, oc.commit_timestamp, oc.commit_timestamp, olRes.1, tlRes.1⟩,
    olRes.2 ++ tlRes.2)

/-- Embedding of process_offset_commit (register.rs lines 314-370). Returns
the new register state and the log lines emitted. -/
def process_offset_commit (po : PoReg) (oc : OffsetCommit) (st : Register) :
    Register × List Log :=
  match alookup st oc.group with
  | some _ =>
    let tp : TopicPartition := ⟨oc.topic, oc.partition⟩
    let built := buildLag po oc tp
    (amodify st oc.group (fun gwl =>
      { gwl with
        lag_by_topic_partition :=
          aupsert gwl.lag_by_topic_partition tp
            (fun lwo => { lwo with lag := some built.1 })
            ⟨some built.1, none⟩ }),
      built.2)
  | none =>
    if oc.group ≠ KOMMITTED_CONSUMER_OFFSETS_CONSUMER then
      (st, [warnUnknownGroupOC])
    else
      (st, [])

/-- New topic-partition-to-owner map of process_group_metadata (register.rs
lines 388-421): for each member, its assigned then its owned partitions are
collected with insert-overwrite semantics, later entries winning, and the
per-member maps are merged the same way. -/
def newTpToOwner (members : List GMMember) : List (TopicPartition × Member) :=
  members.foldl
    (fun acc m =>
      (m.assigned_topic_partitions ++ m.owned_topic_partitions).foldl
        (fun acc2 tp => ainsert acc2 tp ⟨m.id, m.client_id, m.client_host⟩)
        acc)
    []

/-- Body of the known-group branch of process_group_metadata (register.rs
lines 386-434): retain only the entries whose partition appears in the new
owner map, then set the owner of every remaining entry. -/
def rebuildOwners (ntto : List (TopicPartition × Member))
    (gwl : GroupWithLag) : GroupWithLag :=
  ⟨gwl.group,
    ntto.foldl
      (fun entries p =>
        amodify entries p.1 (fun lwo => { lwo with owner := some p.2 }))
      (gwl.lag_by_topic_partition.filter
        (fun e => (alookup ntto e.1).isSome))⟩

/-- Embedding of process_group_metadata (register.rs lines 372-445). -/
def process_group_metadata (gm : GroupMetadata) (st : Register) :
    Register × List Log :=
  if gm.members.isEmpty then
    (st, [debugNoMembersGM])
  else
    match alookup st gm.group with
    | some _ =>
      (amodify st gm.group (rebuildOwners (newTpToOwner gm.members)), [])
    | none =>
      if gm.group ≠ KOMMITTED_CONSUMER_OFFSETS_CONSUMER then
        (st, [warnUnknownGroupGM])
      else
        (st, [])

/-- Members-by-topic-partition map of process_consumer_groups (register.rs
lines 198-208): flattens each member's assignment, collect semantics with
later entries winning. -/
def membersByTp (members : List (String × MemberWithAssignment)) :
    List (TopicPartition × Member) :=
  members.foldl
    (fun acc p =>
      p.2.assignment.foldl (fun acc2 tp => ainsert acc2 tp p.2.member) acc)
    []

/-- New GroupWithLag inserted for a group vacant in the register
(register.rs lines 211-228): one entry per owned partition, owner set,
no lag yet. -/
def freshGwl (gwm : GroupWithMembers) : GroupWithLag :=
  ⟨gwm.group,
    (membersByTp gwm.members).map (fun p => (p.1, ⟨none, some p.2⟩))⟩

/-- Update of an existing GroupWithLag (register.rs lines 229-258): set the
group, retain only still-owned partitions, then upsert ownership for each
owned partition, preserving any existing lag. -/
def updateGwl (gwm : GroupWithMembers) (gwl : GroupWithLag) : GroupWithLag :=
  ⟨gwm.group,
    (membersByTp gwm.members).foldl
      (fun entries p =>
        aupsert entries p.1 (fun lwo => { lwo with owner := some p.2 })
          ⟨none, some p.2⟩)
      (gwl.lag_by_topic_partition.filter
        (fun e => (alookup (membersByTp gwm.members) e.1).isSome))⟩

/-- Per-group body of process_consumer_groups (register.rs lines 210-258). -/
def processOneGroup (g : String) (gwm : GroupWithMembers) (acc : Register) :
    Register :=
  match alookup acc g with
  | none => acc ++ [(g, freshGwl gwm)]
  | some _ => amodify acc g (updateGwl gwm)

/-- One step of the loop over known groups (register.rs lines 193-260): a
group the ConsumerGroupsRegister cannot resolve is left alone. -/
def pcgStep (cg : CGRegisterView) (acc : Register) (g : String) : Register :=
  match cg.get_group g with
  | none => acc
  | some gwm => processOneGroup g gwm acc

/-- Embedding of process_consumer_groups (register.rs lines 186-264): walk
the known groups updating or inserting each, then drop every group that is
no longer known. -/
def process_consumer_groups (cg : CGRegisterView) (st : Register) : Register :=
  (cg.known_groups.foldl (pcgStep cg) st).filter
    (fun e => cg.known_groups.contains e.1)

/-- Inner per-entry loop of update_stale_lags (register.rs lines 272-310),
with the source's control flow kept: a `break` on a non-stale lag or on a
failed watermark fetch leaves the REST of this group's entries untouched. -/
def updateEntriesCode (now : Int) (po : PoReg) :
    List (TopicPartition × LagWithOwner) →
    List (TopicPartition × LagWithOwner)
  | [] => []
  | (tp, lwo) :: rest =>
    match lwo.lag with
    | none => (tp, lwo) :: updateEntriesCode now po rest
    | some curr =>
      if ¬ curr.is_stale now then
        (tp, lwo) :: rest
      else
        match po.get_latest_tracked_offset tp with
        | .error _ => (tp, lwo) :: rest
        | .ok latest =>
          let offset_lag :=
            match po.estimate_offset_lag tp curr.offset with
            | .ok v => v
            | .error _ => 0
          let time_lag :=
            match po.estimate_time_lag tp curr.offset latest.atTime with
            | .ok v => v
            | .error _ => 0
          let newLag : Lag :=
            { curr with
              offset_lag := offset_lag,
              time_lag := time_lag,
              timestamp := now }
          (tp, { lwo with lag := some newLag }) ::
            updateEntriesCode now po rest

/-- Embedding of update_stale_lags (register.rs lines 266-312): every group
is visited; within a group the entries are processed by updateEntriesCode. -/
def update_stale_lags (now : Int) (po : PoReg) (st : Register) : Register :=
  st.map (fun e =>
    (e.1,
      ⟨e.2.group, updateEntriesCode now po e.2.lag_by_topic_partition⟩))

/-- Per-entry refresh loop as the spec prescribes it ("evaluate staleness
per entry"): a non-stale lag or a failed watermark fetch skips ONLY that
entry, and the loop continues with the remaining entries of the group. Used
to exhibit the divergence of the source's `break`. -/
def updateEntriesSpec (now : Int) (po : PoReg) :
    List (TopicPartition × LagWithOwner) →
    List (TopicPartition × LagWithOwner)
  | [] => []
  | (tp, lwo) :: rest =>
    match lwo.lag with
    | none => (tp, lwo) :: updateEntriesSpec now po rest
    | some curr =>
      if ¬ curr.is_stale now then
        (tp, lwo) :: updateEntriesSpec now po rest
      else
        match po.get_latest_tracked_offset tp with
        | .error _ => (tp, lwo) :: updateEntriesSpec now po rest
        | .ok latest =>
          let offset_lag :=
            match po.estimate_offset_lag tp curr.offset with
            | .ok v => v
            | .error _ => 0
          let time_lag :=
            match po.estimate_time_lag tp curr.offset latest.atTime with
            | .ok v => v
            | .error _ => 0
          let newLag : Lag :=
            { curr with
              offset_lag := offset_lag,
              time_lag := time_lag,
              timestamp := now }
          (tp, { lwo with lag := some newLag }) ::
            updateEntriesSpec now po rest

/-- Refresh pass with the spec's per-entry staleness evaluation. -/
def update_stale_lags_spec (now : Int) (po : PoReg) (st : Register) :
    Register :=
  st.map (fun e =>
    (e.1,
      ⟨e.2.group, updateEntriesSpec now po e.2.lag_by_topic_partition⟩))

/-- Embedding of LagRegister::is_ready (register.rs lines 447-452):
`!self.lag_by_group.read().await.is_empty()`. -/
def is_ready (st : Register) : Bool :=
  !st.isEmpty

/-- Events mutating the lag maps of the register between reconciler ticks:
an OffsetCommit handled by process_offset_commit, or a Refresh pass of
update_stale_lags; each carries the oracle answers and clock it observed. -/
inductive LEvent where
  | commit (po : PoReg) (oc : OffsetCommit)
  | refresh (po : PoReg) (now : Int)

/-- State transition of the register under one LEvent. -/
def stepEvent (st : Register) (e : LEvent) : Register :=
  match e with
  | .commit po oc => (process_offset_commit po oc st).1
  | .refresh po now => update_stale_lags now po st

/-- Invariant of spec section 8: every lag entry in the register satisfies
`timestamp ≥ offset_timestamp`. -/
def TimestampInv (st : Register) : Prop :=
  ∀ g gwl, alookup st g = some gwl →
    ∀ tp lwo, alookup gwl.lag_by_topic_partition tp = some lwo →
      ∀ l, lwo.lag = some l → l.offset_timestamp ≤ l.timestamp

/-- Which arm of the emitters' tokio::select! completes first. -/
inductive SelectArm where
  | sendArm
  | shutdownArm
deriving DecidableEq, Repr

/-- Result of `send_timeout`: delivered, or `Err(Timeout)`, or
`Err(Closed)`. -/
inductive SendOutcome where
  | delivered
  | timedOut
  | closed
deriving DecidableEq, Repr

/-- Log line of the emitters' warn! when the channel capacity is zero. -/
def warnChannelSaturated : Log :=
  ⟨.warn, "Emitting channel saturated: receiver too slow?"⟩

/-- Log line of the emitters' error! when send_timeout fails (both emitter
sources use this same literal message). -/
def errorEmitFail : Log :=
  ⟨.error, "Failed to emit cluster status"⟩

/-- Log line of the cluster-status emitter's fetch-failure error! call. -/
def errorFetchMetadataFail : Log :=
  ⟨.error, "Failed to fetch cluster metadata"⟩

/-- Log line of the consumer-groups emitter's fetch-failure error! call. -/
def errorFetchGroupsFail : Log :=
  ⟨.error, "Failed to fetch consumer groups"⟩

/-- Log line of the emitters' info! on shutdown. -/
def infoShutdown : Log :=
  ⟨.info, "Received shutdown signal"⟩

namespace ClusterStatusEmitter

/-- Channel depth of the cluster-status emitter (emitter.rs line 11). -/
def CHANNEL_SIZE : Nat := 1

/-- Send timeout in milliseconds (emitter.rs line 12). -/
def SEND_TIMEOUT_MS : Nat := 100

/-- One iteration of the cluster-status emitter loop (emitter.rs lines
81-126), up to the final interval tick: the fetched snapshot, the observed
channel capacity, the winning select arm and the send outcome enter as
oracles. Returns whether the loop breaks, and the logs emitted. -/
def iteration {σ : Type} (fetch : Except String σ) (capacity : Nat)
    (arm : SelectArm) (send : SendOutcome) : Bool × List Log :=
  match fetch with
  | .ok _ =>
    let satLogs := if capacity = 0 then [warnChannelSaturated] else []
    match arm with
    | .shutdownArm => (true, satLogs ++ [infoShutdown])
    | .sendArm =>
      match send with
      | .delivered => (false, satLogs)
      | .timedOut => (false, satLogs ++ [errorEmitFail])
      | .closed => (false, satLogs ++ [errorEmitFail])
  | .error _ => (false, [errorFetchMetadataFail])

end ClusterStatusEmitter

namespace ConsumerGroupsEmitter

/-- Channel depth of the consumer-groups emitter (emitter.rs line 15). -/
def CHANNEL_SIZE : Nat := 1

/-- Send timeout in milliseconds (emitter.rs line 16). -/
def SEND_TIMEOUT_MS : Nat := 100

/-- One iteration of the consumer-groups emitter loop (emitter.rs lines
121-156), up to the final interval tick; same oracle shape as the
cluster-status emitter. -/
def iteration {σ : Type} (fetch : Except String σ) (capacity : Nat)
    (arm : SelectArm) (send : SendOutcome) : Bool × List Log :=
  match fetch with
  | .ok _ =>
    let satLogs := if capacity = 0 then [warnChannelSaturated] else []
    match arm with
    | .shutdownArm => (true, satLogs ++ [infoShutdown])
    | .sendArm =>
      match send with
      | .delivered => (false, satLogs)
      | .timedOut => (false, satLogs ++ [errorEmitFail])
      | .closed => (false, satLogs ++ [errorEmitFail])
  | .error _ => (false, [errorFetchGroupsFail])

end ConsumerGroupsEmitter

/-- Keys of an association list. -/
def akeys {α β : Type} (l : List (α × β)) : List α := l.map Prod.fst

theorem alookup_cons {α β : Type} [DecidableEq α] (k : α) (v : β)
    (rest : List (α × β)) (a : α) :
    alookup ((k, v) :: rest) a = if k = a then some v else alookup rest a :=
  rfl

theorem amodify_cons {α β : Type} [DecidableEq α] (k : α) (v : β)
    (rest : List (α × β)) (a : α) (f : β → β) :
    amodify ((k, v) :: rest) a f =
      (if k = a then (k, f v) else (k, v)) :: amodify rest a f := by
  simp only [amodify, List.map_cons]

theorem alookup_append {α β : Type} [DecidableEq α] (l1 l2 : List (α × β))
    (a : α) :
    alookup (l1 ++ l2) a =
      match alookup l1 a with
      | some v => some v
      | none => alookup l2 a := by
  induction l1 with
  | nil => simp [alookup]
  | cons p rest ih =>
    obtain ⟨k, v⟩ := p
    by_cases h : k = a <;> simp [alookup, h, ih]

theorem alookup_amodify_self {α β : Type} [DecidableEq α] (l : List (α × β))
    (a : α) (f : β → β) :
    alookup (amodify l a f) a = (alookup l a).map f := by
  induction l with
  | nil => simp [alookup, amodify]
  | cons p rest ih =>
    obtain ⟨k, v⟩ := p
    rw [amodify_cons]
    by_cases h : k = a
    · rw [if_pos h, alookup_cons, alookup_cons, if_pos h, if_pos h]
      rfl
    · rw [if_neg h, alookup_cons, alookup_cons, if_neg h, if_neg h, ih]

theorem alookup_amodify_ne {α β : Type} [DecidableEq α] (l : List (α × β))
    (a : α) (f : β → β) (a' : α) (hne : a' ≠ a) :
    alookup (amodify l a f) a' = alookup l a' := by
  induction l with
  | nil => rfl
  | cons p rest ih =>
    obtain ⟨k, v⟩ := p
    rw [amodify_cons]
    by_cases h : k = a
    · have h2 : ¬ k = a' := fun hh => hne (hh.symm.trans h)
      rw [if_pos h, alookup_cons, alookup_cons, if_neg h2, if_neg h2, ih]
    · rw [if_neg h, alookup_cons, alookup_cons]
      by_cases h2 : k = a'
      · rw [if_pos h2, if_pos h2]
      · rw [if_neg h2, if_neg h2, ih]

theorem alookup_ainsert_self {α β : Type} [DecidableEq α] (l : List (α × β))
    (a : α) (b : β) : alookup (ainsert l a b) a = some b := by
  unfold ainsert
  by_cases hs : (alookup l a).isSome = true
  · rw [if_pos hs, alookup_amodify_self]
    obtain ⟨v, hv⟩ := Option.isSome_iff_exists.mp hs
    rw [hv]
    rfl
  · rw [if_neg hs, alookup_append]
    have hn : alookup l a = none := Option.not_isSome_iff_eq_none.mp hs
    rw [hn]
    simp [alookup]

theorem alookup_ainsert_ne {α β : Type} [DecidableEq α] (l : List (α × β))
    (a : α) (b : β) (a' : α) (hne : a' ≠ a) :
    alookup (ainsert l a b) a' = alookup l a' := by
  unfold ainsert
  by_cases hs : (alookup l a).isSome = true
  · rw [if_pos hs, alookup_amodify_ne _ _ _ _ hne]
  · rw [if_neg hs, alookup_append]
    have h2 : ¬ a = a' := fun hh => hne hh.symm
    cases hl : alookup l a' <;> simp [alookup, h2]

theorem alookup_aupsert_self {α β : Type} [DecidableEq α] (l : List (α × β))
    (a : α) (f : β → β) (d : β) :
    alookup (aupsert l a f d) a =
      match alookup l a with
      | some v => some (f v)
      | none => some d := by
  unfold aupsert
  by_cases hs : (alookup l a).isSome = true
  · rw [if_pos hs, alookup_amodify_self]
    obtain ⟨v, hv⟩ := Option.isSome_iff_exists.mp hs
    rw [hv]
    rfl
  · rw [if_neg hs, alookup_append]
    have hn : alookup l a = none := Option.not_isSome_iff_eq_none.mp hs
    rw [hn]
    simp [alookup]

theorem alookup_aupsert_ne {α β : Type} [DecidableEq α] (l : List (α × β))
    (a : α) (f : β → β) (d : β) (a' : α) (hne : a' ≠ a) :
    alookup (aupsert l a f d) a' = alookup l a' := by
  unfold aupsert
  by_cases hs : (alookup l a).isSome = true
  · rw [if_pos hs, alookup_amodify_ne _ _ _ _ hne]
  · rw [if_neg hs, alookup_append]
    have h2 : ¬ a = a' := fun hh => hne hh.symm
    cases hl : alookup l a' <;> simp [alookup, h2]

theorem alookup_filter_key {α β : Type} [DecidableEq α] (pred : α → Bool)
    (l : List (α × β)) (a : α) :
    alookup (l.filter (fun e => pred e.1)) a =
      if pred a then alookup l a else none := by
  induction l with
  | nil => simp [alookup]
  | cons p rest ih =>
    obtain ⟨k, v⟩ := p
    by_cases hka : k = a
    · subst hka
      by_cases hk : pred k
      · rw [List.filter_cons_of_pos (by simpa using hk), alookup_cons,
          if_pos rfl, alookup_cons, if_pos rfl, if_pos hk]
      · rw [List.filter_cons_of_neg (by simpa using hk), ih,
          if_neg hk, if_neg hk]
    · by_cases hk : pred k
      · rw [List.filter_cons_of_pos (by simpa using hk), alookup_cons,
          if_neg hka, alookup_cons, if_neg hka, ih]
      · rw [List.filter_cons_of_neg (by simpa using hk), ih, alookup_cons,
          if_neg hka]

theorem alookup_map_val {α β γ : Type} [DecidableEq α] (v : α → β → γ)
    (l : List (α × β)) (a : α) :
    alookup (l.map (fun p => (p.1, v p.1 p.2))) a =
      (alookup l a).map (v a) := by
  induction l with
  | nil => simp [alookup]
  | cons p rest ih =>
    obtain ⟨k, b⟩ := p
    rw [List.map_cons]
    by_cases hka : k = a
    · subst hka
      rw [alookup_cons, alookup_cons]
      simp
    · rw [alookup_cons, alookup_cons, if_neg hka, if_neg hka, ih]

theorem alookup_isSome_iff_mem {α β : Type} [DecidableEq α]
    (l : List (α × β)) (a : α) :
    (alookup l a).isSome = true ↔ a ∈ akeys l := by
  induction l with
  | nil => simp [alookup, akeys]
  | cons p rest ih =>
    obtain ⟨k, v⟩ := p
    by_cases hka : k = a
    · subst hka
      simp [alookup_cons, akeys]
    · have hak : a ≠ k := fun hh => hka hh.symm
      simp [alookup_cons, hka, akeys, hak, ih]

theorem alookup_eq_none_of_not_mem {α β : Type} [DecidableEq α]
    (l : List (α × β)) (a : α) (h : a ∉ akeys l) : alookup l a = none := by
  cases hl : alookup l a with
  | none => rfl
  | some v =>
    exact absurd ((alookup_isSome_iff_mem l a).mp (by simp [hl])) h

theorem akeys_amodify {α β : Type} [DecidableEq α] (l : List (α × β))
    (a : α) (f : β → β) : akeys (amodify l a f) = akeys l := by
  induction l with
  | nil => rfl
  | cons p rest ih =>
    obtain ⟨k, v⟩ := p
    rw [amodify_cons]
    by_cases h : k = a
    · rw [if_pos h]
      simp [akeys]
      simpa [akeys] using ih
    · rw [if_neg h]
      simp [akeys]
      simpa [akeys] using ih

theorem nodup_akeys_ainsert {α β : Type} [DecidableEq α]
    {l : List (α × β)} (a : α) (b : β) (h : (akeys l).Nodup) :
    (akeys (ainsert l a b)).Nodup := by
  unfold ainsert
  by_cases hs : (alookup l a).isSome = true
  · rw [if_pos hs, akeys_amodify]
    exact h
  · rw [if_neg hs]
    have hn : a ∉ akeys l := fun hmem =>
      hs ((alookup_isSome_iff_mem l a).mpr hmem)
    have hk : akeys (l ++ [(a, b)]) = akeys l ++ [a] := by simp [akeys]
    rw [hk, List.nodup_append]
    refine ⟨h, List.nodup_singleton a, ?_⟩
    intro x hx hxa
    rw [List.mem_singleton] at hxa
    subst hxa
    exact hn hx

theorem foldl_preserves {σ τ : Type} (P : σ → Prop) (step : σ → τ → σ)
    (hstep : ∀ s t, P s → P (step s t)) :
    ∀ (xs : List τ) (s : σ), P s → P (xs.foldl step s) := by
  intro xs
  induction xs with
  | nil => exact fun s h => h
  | cons x rest ih => exact fun s h => ih (step s x) (hstep s x h)

theorem akeys_cons {α β : Type} (p : α × β) (l : List (α × β)) :
    akeys (p :: l) = p.1 :: akeys l := rfl

theorem alookup_foldl_aupsert_not_mem {α β γ : Type} [DecidableEq α]
    (f : γ → β → β) (d : γ → β) (l : List (α × γ)) :
    ∀ (base : List (α × β)) (a : α), a ∉ akeys l →
      alookup (l.foldl (fun es p => aupsert es p.1 (f p.2) (d p.2)) base) a =
        alookup base a := by
  induction l with
  | nil => intro base a _; rfl
  | cons p rest ih =>
    intro base a ha
    rw [akeys_cons, List.mem_cons, not_or] at ha
    obtain ⟨ha1, ha2⟩ := ha
    rw [List.foldl_cons, ih _ _ ha2, alookup_aupsert_ne _ _ _ _ _ ha1]

theorem alookup_foldl_aupsert {α β γ : Type} [DecidableEq α]
    (f : γ → β → β) (d : γ → β) (l : List (α × γ)) :
    ∀ (base : List (α × β)) (a : α), (akeys l).Nodup →
      alookup (l.foldl (fun es p => aupsert es p.1 (f p.2) (d p.2)) base) a =
        match alookup l a with
        | some m => some (match alookup base a with
                          | some v => f m v
                          | none => d m)
        | none => alookup base a := by
  induction l with
  | nil => intro base a _; rfl
  | cons p rest ih =>
    intro base a hnd
    rw [akeys_cons] at hnd
    obtain ⟨hp, hrest⟩ := List.nodup_cons.mp hnd
    obtain ⟨k, m⟩ := p
    rw [List.foldl_cons]
    by_cases hka : k = a
    · subst hka
      rw [alookup_foldl_aupsert_not_mem f d rest _ _ hp,
        alookup_aupsert_self, alookup_cons, if_pos rfl]
      cases alookup base k <;> rfl
    · rw [ih _ _ hrest, alookup_cons, if_neg hka,
        alookup_aupsert_ne _ _ _ _ _ (fun hh => hka hh.symm)]

theorem alookup_foldl_amodify_not_mem {α β γ : Type} [DecidableEq α]
    (f : γ → β → β) (l : List (α × γ)) :
    ∀ (base : List (α × β)) (a : α), a ∉ akeys l →
      alookup (l.foldl (fun es p => amodify es p.1 (f p.2)) base) a =
        alookup base a := by
  induction l with
  | nil => intro base a _; rfl
  | cons p rest ih =>
    intro base a ha
    rw [akeys_cons, List.mem_cons, not_or] at ha
    obtain ⟨ha1, ha2⟩ := ha
    rw [List.foldl_cons, ih _ _ ha2, alookup_amodify_ne _ _ _ _ ha1]

theorem alookup_foldl_amodify {α β γ : Type} [DecidableEq α]
    (f : γ → β → β) (l : List (α × γ)) :
    ∀ (base : List (α × β)) (a : α), (akeys l).Nodup →
      alookup (l.foldl (fun es p => amodify es p.1 (f p.2)) base) a =
        match alookup l a with
        | some m => (alookup base a).map (f m)
        | none => alookup base a := by
  induction l with
  | nil => intro base a _; rfl
  | cons p rest ih =>
    intro base a hnd
    rw [akeys_cons] at hnd
    obtain ⟨hp, hrest⟩ := List.nodup_cons.mp hnd
    obtain ⟨k, m⟩ := p
    rw [List.foldl_cons]
    by_cases hka : k = a
    · subst hka
      rw [alookup_foldl_amodify_not_mem f rest _ _ hp,
        alookup_amodify_self, alookup_cons, if_pos rfl]
    · rw [ih _ _ hrest, alookup_cons, if_neg hka,
        alookup_amodify_ne _ _ _ _ (fun hh => hka hh.symm)]

theorem alookup_isSome_ainsert {α β : Type} [DecidableEq α]
    (l : List (α × β)) (a : α) (b : β) (a' : α) :
    (alookup (ainsert l a b) a').isSome = true ↔
      a' = a ∨ (alookup l a').isSome = true := by
  by_cases h : a' = a
  · subst h
    rw [alookup_ainsert_self]
    simp
  · rw [alookup_ainsert_ne _ _ _ _ h]
    simp [h]

theorem nodup_akeys_insertFold {α β : Type} [DecidableEq α]
    (tps : List α) (b : β) :
    ∀ acc : List (α × β), (akeys acc).Nodup →
      (akeys (tps.foldl (fun es tp => ainsert es tp b) acc)).Nodup := by
  induction tps with
  | nil => exact fun acc h => h
  | cons t ts ih => exact fun acc h => ih _ (nodup_akeys_ainsert t b h)

theorem isSome_insertFold {α β : Type} [DecidableEq α]
    (tps : List α) (b : β) :
    ∀ (acc : List (α × β)) (a : α),
      ((alookup (tps.foldl (fun es tp => ainsert es tp b) acc) a).isSome
          = true) ↔
        a ∈ tps ∨ (alookup acc a).isSome = true := by
  induction tps with
  | nil => intro acc a; simp
  | cons t ts ih =>
    intro acc a
    rw [List.foldl_cons, ih, alookup_isSome_ainsert, List.mem_cons]
    tauto

theorem nodup_akeys_newTpToOwner (members : List GMMember) :
    (akeys (newTpToOwner members)).Nodup := by
  unfold newTpToOwner
  exact foldl_preserves (fun es => (akeys es).Nodup) _
    (fun s m hs => nodup_akeys_insertFold _ _ _ hs) members []
    (by simp [akeys])

theorem nodup_akeys_membersByTp
    (members : List (String × MemberWithAssignment)) :
    (akeys (membersByTp members)).Nodup := by
  unfold membersByTp
  exact foldl_preserves (fun es => (akeys es).Nodup) _
    (fun s p hs => nodup_akeys_insertFold _ _ _ hs) members []
    (by simp [akeys])

theorem isSome_newTpToOwner (members : List GMMember) (tp : TopicPartition) :
    (alookup (newTpToOwner members) tp).isSome = true ↔
      ∃ m ∈ members,
        tp ∈ m.assigned_topic_partitions ++ m.owned_topic_partitions := by
  have aux : ∀ (ms : List GMMember) (acc : List (TopicPartition × Member)),
      ((alookup (ms.foldl (fun acc m =>
          (m.assigned_topic_partitions ++ m.owned_topic_partitions).foldl
            (fun acc2 tp =>
              ainsert acc2 tp ⟨m.id, m.client_id, m.client_host⟩)
            acc) acc) tp).isSome = true) ↔
        ((∃ m ∈ ms,
            tp ∈ m.assigned_topic_partitions ++ m.owned_topic_partitions) ∨
          (alookup acc tp).isSome = true) := by
    intro ms
    induction ms with
    | nil => intro acc; simp
    | cons m ms ih =>
      intro acc
      rw [List.foldl_cons, ih, isSome_insertFold]
      simp only [List.mem_cons]
      constructor
      · rintro (⟨m', hm', hp⟩ | (hp | hs))
        · exact Or.inl ⟨m', Or.inr hm', hp⟩
        · exact Or.inl ⟨m, Or.inl rfl, hp⟩
        · exact Or.inr hs
      · rintro (⟨m', hm' | hm', hp⟩ | hs)
        · subst hm'
          exact Or.inr (Or.inl hp)
        · exact Or.inl ⟨m', hm', hp⟩
        · exact Or.inr (Or.inr hs)
  rw [newTpToOwner, aux members []]
  simp [alookup]

theorem alookup_freshGwl (gwm : GroupWithMembers) (tp : TopicPartition) :
    alookup (freshGwl gwm).lag_by_topic_partition tp =
      (alookup (membersByTp gwm.members) tp).map
        (fun m => (⟨none, some m⟩ : LagWithOwner)) :=
  alookup_map_val (fun _ m => (⟨none, some m⟩ : LagWithOwner))
    (membersByTp gwm.members) tp

theorem alookup_updateGwl (gwm : GroupWithMembers) (gwl : GroupWithLag)
    (tp : TopicPartition) :
    alookup (updateGwl gwm gwl).lag_by_topic_partition tp =
      match alookup (membersByTp gwm.members) tp with
      | some m =>
        some (match alookup gwl.lag_by_topic_partition tp with
              | some lwo => { lwo with owner := some m }
              | none => (⟨none, some m⟩ : LagWithOwner))
      | none => none := by
  have hnd := nodup_akeys_membersByTp gwm.members
  have h1 := alookup_foldl_aupsert
    (fun (m : Member) (lwo : LagWithOwner) => { lwo with owner := some m })
    (fun (m : Member) => (⟨none, some m⟩ : LagWithOwner))
    (membersByTp gwm.members)
    (gwl.lag_by_topic_partition.filter
      (fun e => (alookup (membersByTp gwm.members) e.1).isSome))
    tp hnd
  have h2 := alookup_filter_key
    (fun k => (alookup (membersByTp gwm.members) k).isSome)
    gwl.lag_by_topic_partition tp
  refine Eq.trans h1 ?_
  cases hm : alookup (membersByTp gwm.members) tp with
  | none =>
    rw [h2]
    simp [hm]
  | some m =>
    rw [h2]
    simp only [hm, Option.isSome_some, if_true]
    cases halu : alookup gwl.lag_by_topic_partition tp <;> simp

theorem alookup_rebuildOwners (ntto : List (TopicPartition × Member))
    (gwl : GroupWithLag) (tp : TopicPartition)
    (hnd : (akeys ntto).Nodup) :
    alookup (rebuildOwners ntto gwl).lag_by_topic_partition tp =
      match alookup gwl.lag_by_topic_partition tp, alookup ntto tp with
      | some lwo, some m => some (⟨lwo.lag, some m⟩ : LagWithOwner)
      | _, _ => none := by
  have h1 := alookup_foldl_amodify
    (fun (m : Member) (lwo : LagWithOwner) => { lwo with owner := some m })
    ntto
    (gwl.lag_by_topic_partition.filter (fun e => (alookup ntto e.1).isSome))
    tp hnd
  have h2 := alookup_filter_key (fun k => (alookup ntto k).isSome)
    gwl.lag_by_topic_partition tp
  refine Eq.trans h1 ?_
  cases hm : alookup ntto tp with
  | none =>
    rw [h2]
    simp only [hm, Option.isSome_none, if_false]
    cases halu : alookup gwl.lag_by_topic_partition tp <;> simp
  | some m =>
    rw [h2]
    simp only [hm, Option.isSome_some, if_true]
    cases halu : alookup gwl.lag_by_topic_partition tp <;> simp

theorem alookup_processOneGroup_self (g : String) (gwm : GroupWithMembers)
    (acc : Register) :
    alookup (processOneGroup g gwm acc) g =
      some (match alookup acc g with
            | none => freshGwl gwm
            | some gwl => updateGwl gwm gwl) := by
  unfold processOneGroup
  cases h : alookup acc g with
  | none => simp [alookup_append, h, alookup]
  | some gwl => simp [alookup_amodify_self, h]

theorem alookup_processOneGroup_ne (g : String) (gwm : GroupWithMembers)
    (acc : Register) (g' : String) (hne : g' ≠ g) :
    alookup (processOneGroup g gwm acc) g' = alookup acc g' := by
  unfold processOneGroup
  cases h : alookup acc g with
  | none =>
    rw [alookup_append]
    cases hl : alookup acc g' <;>
      simp [alookup, hl, show ¬ g = g' from fun hh => hne hh.symm]
  | some gwl => exact alookup_amodify_ne _ _ _ _ hne

theorem alookup_pcgStep_ne (cg : CGRegisterView) (acc : Register)
    (g g' : String) (hne : g' ≠ g) :
    alookup (pcgStep cg acc g) g' = alookup acc g' := by
  unfold pcgStep
  cases cg.get_group g with
  | none => rfl
  | some gwm => exact alookup_processOneGroup_ne _ _ _ _ hne

theorem foldl_pcgStep_not_mem (cg : CGRegisterView) (gs : List String) :
    ∀ (acc : Register) (g : String), g ∉ gs →
      alookup (gs.foldl (pcgStep cg) acc) g = alookup acc g := by
  induction gs with
  | nil => intro acc g _; rfl
  | cons g0 rest ih =>
    intro acc g hg
    rw [List.mem_cons, not_or] at hg
    rw [List.foldl_cons, ih _ _ hg.2, alookup_pcgStep_ne _ _ _ _ hg.1]

theorem foldl_pcgStep_mem (cg : CGRegisterView) (gs : List String) :
    ∀ (acc : Register) (g : String) (gwm : GroupWithMembers),
      gs.Nodup → g ∈ gs → cg.get_group g = some gwm →
      alookup (gs.foldl (pcgStep cg) acc) g =
        some (match alookup acc g with
              | none => freshGwl gwm
              | some gwl => updateGwl gwm gwl) := by
  induction gs with
  | nil =>
    intro acc g gwm _ hmem _
    exact absurd hmem (List.not_mem_nil g)
  | cons g0 rest ih =>
    intro acc g gwm hnd hmem hget
    obtain ⟨h0, hrest⟩ := List.nodup_cons.mp hnd
    rw [List.foldl_cons]
    rcases List.mem_cons.mp hmem with hg0 | hgr
    · subst hg0
      rw [foldl_pcgStep_not_mem cg rest _ _ h0]
      have hstep : pcgStep cg acc g = processOneGroup g gwm acc := by
        unfold pcgStep
        rw [hget]
      rw [hstep]
      exact alookup_processOneGroup_self g gwm acc
    · have hne : g ≠ g0 := fun hh => h0 (hh ▸ hgr)
      rw [ih _ _ _ hrest hgr hget, alookup_pcgStep_ne _ _ _ _ hne]

theorem alookup_update_stale_lags (now : Int) (po : PoReg) (st : Register)
    (g : String) :
    alookup (update_stale_lags now po st) g =
      (alookup st g).map (fun gwl =>
        (⟨gwl.group,
          updateEntriesCode now po gwl.lag_by_topic_partition⟩ :
            GroupWithLag)) := by
  unfold update_stale_lags
  induction st with
  | nil => simp [alookup]
  | cons p rest ih =>
    obtain ⟨k, gwl0⟩ := p
    rw [List.map_cons]
    by_cases hka : k = g
    · subst hka
      rw [alookup_cons, alookup_cons, if_pos rfl, if_pos rfl]
      rfl
    · rw [alookup_cons, alookup_cons, if_neg hka, if_neg hka, ih]

theorem buildLag_timestamps (po : PoReg) (oc : OffsetCommit)
    (tp : TopicPartition) :
    (buildLag po oc tp).1.offset_timestamp = oc.commit_timestamp ∧
    (buildLag po oc tp).1.timestamp = oc.commit_timestamp := by
  unfold buildLag
  cases po.estimate_offset_lag tp oc.offset <;>
    cases po.estimate_time_lag tp oc.offset oc.commit_timestamp <;> simp

/-- Rust's unwrap_or_else collapsed to its default value. -/
def exceptD {ε α : Type} (r : Except ε α) (d : α) : α :=
  match r with
  | .ok v => v
  | .error _ => d

/-- Pointwise effect of one Refresh visit on a single entry: either the
entry is untouched, or its lag was stale, the watermark fetch succeeded,
and the lag was rebuilt with only timestamp, offset_lag and time_lag
changed. -/
def RefreshedVal (now : Int) (po : PoReg) (tp : TopicPartition)
    (lwo lwo' : LagWithOwner) : Prop :=
  lwo'.owner = lwo.owner ∧
  (lwo'.lag = lwo.lag ∨
    ∃ l latest, lwo.lag = some l ∧ l.is_stale now = true ∧
      po.get_latest_tracked_offset tp = Except.ok latest ∧
      lwo'.lag = some ⟨l.offset, l.offset_timestamp, now,
        exceptD (po.estimate_offset_lag tp l.offset) 0,
        exceptD (po.estimate_time_lag tp l.offset latest.atTime) 0⟩)

theorem refreshedVal_refl (now : Int) (po : PoReg) (tp : TopicPartition)
    (lwo : LagWithOwner) : RefreshedVal now po tp lwo lwo :=
  ⟨rfl, Or.inl rfl⟩

theorem updateEntriesCode_forall₂ (now : Int) (po : PoReg) :
    ∀ entries, List.Forall₂
      (fun e e' => e'.1 = e.1 ∧ RefreshedVal now po e.1 e.2 e'.2)
      entries (updateEntriesCode now po entries) := by
  intro entries
  induction entries with
  | nil => exact List.Forall₂.nil
  | cons e rest ih =>
    obtain ⟨tp, lwo⟩ := e
    cases hlag : lwo.lag with
    | none =>
      simp only [updateEntriesCode, hlag]
      exact List.Forall₂.cons ⟨rfl, refreshedVal_refl now po tp lwo⟩ ih
    | some curr =>
      by_cases hstale : curr.is_stale now = true
      · cases hfetch : po.get_latest_tracked_offset tp with
        | error err =>
          simp only [updateEntriesCode, hlag, hstale, hfetch, not_true,
            if_false]
          exact List.Forall₂.cons ⟨rfl, refreshedVal_refl now po tp lwo⟩
            (List.forall₂_same.mpr
              (fun x _ => ⟨rfl, refreshedVal_refl now po x.1 x.2⟩))
        | ok latest =>
          simp only [updateEntriesCode, hlag, hstale, hfetch, not_true,
            if_false]
          refine List.Forall₂.cons ⟨rfl, rfl, Or.inr ?_⟩ ih
          refine ⟨curr, latest, hlag, hstale, hfetch, ?_⟩
          cases po.estimate_offset_lag tp curr.offset <;>
            cases po.estimate_time_lag tp curr.offset latest.atTime <;>
              simp [exceptD]
      · simp only [updateEntriesCode, hlag, hstale, not_false_iff, if_true]
        exact List.Forall₂.cons ⟨rfl, refreshedVal_refl now po tp lwo⟩
          (List.forall₂_same.mpr
            (fun x _ => ⟨rfl, refreshedVal_refl now po x.1 x.2⟩))

theorem alookup_of_forall₂ {α β : Type} [DecidableEq α]
    (R : α → β → β → Prop) :
    ∀ {l l' : List (α × β)},
      List.Forall₂ (fun e e' => e'.1 = e.1 ∧ R e.1 e.2 e'.2) l l' →
      ∀ a v', alookup l' a = some v' →
        ∃ v, alookup l a = some v ∧ R a v v' := by
  intro l l' h
  induction h with
  | nil => intro a v' hl; simp [alookup] at hl
  | @cons e e' l1 l2 h1 h2 ih =>
    intro a v' hl
    obtain ⟨hkey, hR⟩ := h1
    have hcons' : alookup (e' :: l2) a =
        if e'.1 = a then some e'.2 else alookup l2 a := by
      obtain ⟨k', v0⟩ := e'
      rfl
    have hcons : alookup (e :: l1) a =
        if e.1 = a then some e.2 else alookup l1 a := by
      obtain ⟨k, v⟩ := e
      rfl
    rw [hcons', hkey] at hl
    by_cases hka : e.1 = a
    · rw [if_pos hka] at hl
      cases hl
      refine ⟨e.2, ?_, hka ▸ hR⟩
      rw [hcons, if_pos hka]
    · rw [if_neg hka] at hl
      obtain ⟨w, hw, hRw⟩ := ih a v' hl
      refine ⟨w, ?_, hRw⟩
      rw [hcons, if_neg hka]
      exact hw

theorem timestampInv_refresh (now : Int) (po : PoReg) (st : Register)
    (h : TimestampInv st) : TimestampInv (update_stale_lags now po st) := by
  intro g gwl' hg tp lwo' htp l' hl'
  rw [alookup_update_stale_lags] at hg
  cases hst : alookup st g with
  | none => rw [hst] at hg; simp at hg
  | some gwl =>
    rw [hst] at hg
    simp only [Option.map_some'] at hg
    cases hg
    obtain ⟨lwo, hlwo, hown, hcase⟩ :=
      alookup_of_forall₂ (RefreshedVal now po)
        (updateEntriesCode_forall₂ now po gwl.lag_by_topic_partition)
        tp lwo' htp
    cases hcase with
    | inl heq =>
      exact h g gwl hst tp lwo hlwo l' (heq ▸ hl')
    | inr hex =>
      obtain ⟨l, latest, hsome, hstale, hfetch, hlag'⟩ := hex
      rw [hlag'] at hl'
      cases hl'
      simp only [Lag.is_stale, LAG_STALE_AFTER, decide_eq_true_eq] at hstale
      show l.offset_timestamp ≤ now
      omega

theorem timestampInv_commit (po : PoReg) (oc : OffsetCommit) (st : Register)
    (h : TimestampInv st) :
    TimestampInv (process_offset_commit po oc st).1 := by
  unfold process_offset_commit
  cases hg0 : alookup st oc.group with
  | none =>
    by_cases hk : oc.group = KOMMITTED_CONSUMER_OFFSETS_CONSUMER <;>
      simp [hk] <;> exact h
  | some gwl0 =>
    intro g gwl' hg tp' lwo' htp' l' hl'
    by_cases hgg : g = oc.group
    · subst hgg
      rw [alookup_amodify_self, hg0] at hg
      simp only [Option.map_some'] at hg
      cases hg
      by_cases htp : tp' = (⟨oc.topic, oc.partition⟩ : TopicPartition)
      · subst htp
        rw [alookup_aupsert_self] at htp'
        have hts := buildLag_timestamps po oc ⟨oc.topic, oc.partition⟩
        cases hold : alookup gwl0.lag_by_topic_partition
            (⟨oc.topic, oc.partition⟩ : TopicPartition) with
        | none =>
          rw [hold] at htp'
          cases htp'
          have hl2 : some (buildLag po oc ⟨oc.topic, oc.partition⟩).1 =
              some l' := hl'
          cases hl2
          rw [hts.1, hts.2]
        | some lwoOld =>
          rw [hold] at htp'
          cases htp'
          have hl2 : some (buildLag po oc ⟨oc.topic, oc.partition⟩).1 =
              some l' := hl'
          cases hl2
          rw [hts.1, hts.2]
      · rw [alookup_aupsert_ne _ _ _ _ _ htp] at htp'
        exact h oc.group gwl0 hg0 tp' lwo' htp' l' hl'
    · rw [alookup_amodify_ne _ _ _ _ hgg] at hg
      exact h g gwl' hg tp' lwo' htp' l' hl'

/-- Oracle whose every query fails; used for concrete witnesses. -/
def poNull : PoReg :=
  ⟨fun _ => Except.error "e", fun _ _ => Except.error "e",
    fun _ _ _ => Except.error "e"⟩

/-- Oracle with fixed successful answers; used for concrete witnesses. -/
def poOk : PoReg :=
  ⟨fun _ => Except.ok ⟨200, 100⟩, fun _ _ => Except.ok 50,
    fun _ _ _ => Except.ok 7⟩

/-- First topic partition of the C1 scenario. -/
def tpC1a : TopicPartition := ⟨"t", 0⟩

/-- Second topic partition of the C1 scenario. -/
def tpC1b : TopicPartition := ⟨"t", 1⟩

/-- Lag entry of the C1 scenario that is fresh at instant 100. -/
def freshLagC1 : Lag := ⟨10, 97, 97, 3, 0⟩

/-- Lag entry of the C1 scenario that is stale at instant 100. -/
def staleLagC1 : Lag := ⟨20, 90, 90, 9, 0⟩

/-- Register of the C1 scenario: one group whose entry list has the fresh
entry before the stale one. -/
def stC1 : Register :=
  [("g", ⟨⟨"g", "", "", ""⟩,
    [(tpC1a, ⟨some freshLagC1, none⟩),
     (tpC1b, ⟨some staleLagC1, none⟩)]⟩)]

/-- C1: the claim says a Refresh pass evaluates staleness independently for
every entry, so that a stale entry is refreshed even when an earlier entry
of the same group is fresh. The source instead exits the group's entry loop
with `break` at the first non-stale entry: at instant 100, with the fresh
entry listed first and every watermark query succeeding, the pass returns
the register unchanged, while the per-entry semantics the spec prescribes
refreshes the stale entry's lags and timestamp. -/
theorem c1_refresh_break_bug :
    Lag.is_stale 100 staleLagC1 = true ∧
    update_stale_lags 100 poOk stC1 = stC1 ∧
    update_stale_lags_spec 100 poOk stC1 =
      [("g", ⟨⟨"g", "", "", ""⟩,
        [(tpC1a, ⟨some freshLagC1, none⟩),
         (tpC1b, ⟨some ⟨20, 90, 100, 50, 7⟩, none⟩)]⟩)] := by
  refine ⟨by decide, ?_, ?_⟩ <;> rfl

/-- Register whose single group has an empty partition map. -/
def stC2 : Register := [("g", ⟨⟨"g", "", "", ""⟩, []⟩)]

/-- C2 counterexample: a register whose only group has an empty partition
map, on which is_ready returns true although the claim requires false. -/
theorem c2_is_ready_counterexample :
    is_ready stC2 = true ∧ ∀ e ∈ stC2, e.2.lag_by_topic_partition = [] := by
  decide

/-- C2 amended: is_ready returns true exactly when the register contains at
least one group, whether or not any group has a partition entry. -/
theorem c2_is_ready_amended (st : Register) :
    is_ready st = true ↔ st ≠ [] := by
  cases st <;> simp [is_ready]

/-- C4: an OffsetCommit for a group unknown to the register leaves the
register unchanged; a warning is logged exactly when the group is not the
internal consumer-offsets consumer's own group, and nothing is logged when
it is. -/
theorem c4_unknown_group_offset_commit (po : PoReg) (oc : OffsetCommit)
    (st : Register) (h : alookup st oc.group = none) :
    (process_offset_commit po oc st).1 = st ∧
    (oc.group ≠ KOMMITTED_CONSUMER_OFFSETS_CONSUMER →
      (process_offset_commit po oc st).2 = [warnUnknownGroupOC]) ∧
    (oc.group = KOMMITTED_CONSUMER_OFFSETS_CONSUMER →
      (process_offset_commit po oc st).2 = []) := by
  unfold process_offset_commit
  rw [h]
  by_cases hk : oc.group = KOMMITTED_CONSUMER_OFFSETS_CONSUMER <;>
    simp [hk]

/-- OffsetCommit event about the unknown group "h". -/
def ocC4 : OffsetCommit := ⟨"h", "t", 0, 5, 100⟩

/-- C4 witness at the S3 scenario: empty register, group "h". -/
theorem c4_unknown_group_offset_commit_witness :
    (process_offset_commit poNull ocC4 []).1 = [] ∧
    (process_offset_commit poNull ocC4 []).2 = [warnUnknownGroupOC] := by
  have h := c4_unknown_group_offset_commit poNull ocC4 [] (by rfl)
  exact ⟨h.1, h.2.1 (by decide)⟩

/-- C9: both snapshot emitters use a depth-1 channel and a 100 ms send
timeout; when a snapshot was fetched and the reported capacity is zero the
saturation warning is logged whatever happens next, and when the send times
out the send error is logged and the iteration ends with the loop set to
continue to the next interval tick rather than stop. -/
theorem c9_emitter_backpressure :
    ClusterStatusEmitter.CHANNEL_SIZE = 1 ∧
    ConsumerGroupsEmitter.CHANNEL_SIZE = 1 ∧
    ClusterStatusEmitter.SEND_TIMEOUT_MS = 100 ∧
    ConsumerGroupsEmitter.SEND_TIMEOUT_MS = 100 ∧
    (∀ (σ : Type) (snap : σ) (arm : SelectArm) (send : SendOutcome)
        (c : Nat),
      warnChannelSaturated ∈
        (ClusterStatusEmitter.iteration (Except.ok snap) 0 arm send).2 ∧
      warnChannelSaturated ∈
        (ConsumerGroupsEmitter.iteration (Except.ok snap) 0 arm send).2 ∧
      ((ClusterStatusEmitter.iteration (Except.ok snap) c
          SelectArm.sendArm SendOutcome.timedOut).1 = false ∧
        errorEmitFail ∈
          (ClusterStatusEmitter.iteration (Except.ok snap) c
            SelectArm.sendArm SendOutcome.timedOut).2) ∧
      ((ConsumerGroupsEmitter.iteration (Except.ok snap) c
          SelectArm.sendArm SendOutcome.timedOut).1 = false ∧
        errorEmitFail ∈
          (ConsumerGroupsEmitter.iteration (Except.ok snap) c
            SelectArm.sendArm SendOutcome.timedOut).2)) := by
  refine ⟨rfl, rfl, rfl, rfl, ?_⟩
  intro σ snap arm send c
  refine ⟨?_, ?_, ?_, ?_⟩
  · cases arm <;> cases send <;>
      simp [ClusterStatusEmitter.iteration]
  · cases arm <;> cases send <;>
      simp [ConsumerGroupsEmitter.iteration]
  · by_cases hc : c = 0 <;> simp [ClusterStatusEmitter.iteration, hc]
  · by_cases hc : c = 0 <;> simp [ConsumerGroupsEmitter.iteration, hc]

/-- C5: a GroupMetadata event with no members leaves the register unchanged;
otherwise, for a group known to the register, the new owner map is keyed by
exactly the union of every member's assigned and owned partitions, every
entry outside that union is removed, and every remaining entry keeps its
lag and gets its owner set to the owning member. -/
theorem c5_group_metadata_rebuild (gm : GroupMetadata) (st : Register) :
    (gm.members = [] → (process_group_metadata gm st).1 = st) ∧
    (∀ tp, (alookup (newTpToOwner gm.members) tp).isSome = true ↔
      ∃ m ∈ gm.members,
        tp ∈ m.assigned_topic_partitions ++ m.owned_topic_partitions) ∧
    (gm.members ≠ [] → ∀ gwl, alookup st gm.group = some gwl →
      ∃ gwl',
        alookup (process_group_metadata gm st).1 gm.group = some gwl' ∧
        gwl'.group = gwl.group ∧
        ∀ tp, alookup gwl'.lag_by_topic_partition tp =
          match alookup gwl.lag_by_topic_partition tp,
              alookup (newTpToOwner gm.members) tp with
          | some lwo, some m => some (⟨lwo.lag, some m⟩ : LagWithOwner)
          | _, _ => none) := by
  refine ⟨?_, fun tp => isSome_newTpToOwner gm.members tp, ?_⟩
  · intro hempty
    unfold process_group_metadata
    simp [hempty]
  · intro hne gwl hgwl
    unfold process_group_metadata
    have hiso : gm.members.isEmpty = false := by
      cases hmm : gm.members <;> simp_all
    simp only [hiso, Bool.false_eq_true, if_false, hgwl]
    refine ⟨rebuildOwners (newTpToOwner gm.members) gwl, ?_, rfl, ?_⟩
    · rw [alookup_amodify_self, hgwl]
      rfl
    · intro tp
      exact alookup_rebuildOwners (newTpToOwner gm.members) gwl tp
        (nodup_akeys_newTpToOwner gm.members)

/-- Member of the C5 witness scenario, assigned ("t",0), owning ("t",1). -/
def memC5 : GMMember := ⟨"m1", "c1", "h1", [⟨"t", 0⟩], [⟨"t", 1⟩]⟩

/-- GroupMetadata of the C5 witness scenario. -/
def gmC5 : GroupMetadata := ⟨"g", [memC5]⟩

/-- Existing group state of the C5 witness: one entry in the new union and
one outside it. -/
def gwlC5 : GroupWithLag :=
  ⟨⟨"g", "", "", ""⟩,
    [(⟨"t", 0⟩, ⟨some ⟨5, 50, 50, 1, 2⟩, none⟩),
     (⟨"t", 9⟩, ⟨some ⟨6, 60, 60, 3, 4⟩, none⟩)]⟩

/-- Register of the C5 witness scenario. -/
def stC5 : Register := [("g", gwlC5)]

/-- C5 witness: the theorem applied to the concrete scenario. -/
theorem c5_group_metadata_rebuild_witness :
    ∃ gwl',
      alookup (process_group_metadata gmC5 stC5).1 gmC5.group = some gwl' ∧
      gwl'.group = gwlC5.group ∧
      ∀ tp, alookup gwl'.lag_by_topic_partition tp =
        match alookup gwlC5.lag_by_topic_partition tp,
            alookup (newTpToOwner gmC5.members) tp with
        | some lwo, some m => some (⟨lwo.lag, some m⟩ : LagWithOwner)
        | _, _ => none :=
  (c5_group_metadata_rebuild gmC5 stC5).2.2 (by decide) gwlC5 (by rfl)

/-- C6: an OffsetCommit for a known group upserts exactly the entry of its
topic partition: an existing entry gets its lag replaced by the newly built
Lag with its owner untouched, a missing entry is inserted with that Lag and
no owner, and every other topic partition's entry is unchanged. -/
theorem c6_offset_commit_upsert (po : PoReg) (oc : OffsetCommit)
    (st : Register) (gwl : GroupWithLag)
    (h : alookup st oc.group = some gwl) :
    ∃ gwl',
      alookup (process_offset_commit po oc st).1 oc.group = some gwl' ∧
      gwl'.group = gwl.group ∧
      ∀ tp', alookup gwl'.lag_by_topic_partition tp' =
        if tp' = (⟨oc.topic, oc.partition⟩ : TopicPartition) then
          some (⟨some (buildLag po oc ⟨oc.topic, oc.partition⟩).1,
            (alookup gwl.lag_by_topic_partition
              (⟨oc.topic, oc.partition⟩ : TopicPartition)).bind
              (fun lwo => lwo.owner)⟩ : LagWithOwner)
        else alookup gwl.lag_by_topic_partition tp' := by
  unfold process_offset_commit
  simp only [h]
  refine ⟨⟨gwl.group,
    aupsert gwl.lag_by_topic_partition ⟨oc.topic, oc.partition⟩
      (fun lwo =>
        ⟨some (buildLag po oc ⟨oc.topic, oc.partition⟩).1, lwo.owner⟩)
      ⟨some (buildLag po oc ⟨oc.topic, oc.partition⟩).1, none⟩⟩,
    ?_, rfl, ?_⟩
  · rw [alookup_amodify_self, h]
    rfl
  · intro tp'
    by_cases htp : tp' = (⟨oc.topic, oc.partition⟩ : TopicPartition)
    · rw [htp, if_pos rfl, alookup_aupsert_self]
      cases hold : alookup gwl.lag_by_topic_partition
          (⟨oc.topic, oc.partition⟩ : TopicPartition) <;> rfl
    · rw [if_neg htp, alookup_aupsert_ne _ _ _ _ _ htp]

/-- OffsetCommit of the C6 witness scenario, for known group "g". -/
def ocC6 : OffsetCommit := ⟨"g", "t", 0, 150, 100⟩

/-- C6 witness: the theorem applied to a register knowing group "g" with an
existing owned entry at ("t",0). -/
theorem c6_offset_commit_upsert_witness :
    ∃ gwl',
      alookup (process_offset_commit poOk ocC6 stC5).1 ocC6.group
        = some gwl' ∧
      gwl'.group = gwlC5.group ∧
      ∀ tp', alookup gwl'.lag_by_topic_partition tp' =
        if tp' = (⟨ocC6.topic, ocC6.partition⟩ : TopicPartition) then
          some (⟨some (buildLag poOk ocC6 ⟨ocC6.topic, ocC6.partition⟩).1,
            (alookup gwlC5.lag_by_topic_partition
              (⟨ocC6.topic, ocC6.partition⟩ : TopicPartition)).bind
              (fun lwo => lwo.owner)⟩ : LagWithOwner)
        else alookup gwlC5.lag_by_topic_partition tp' :=
  c6_offset_commit_upsert poOk ocC6 stC5 gwlC5 (by rfl)

/-- GroupMetadata with no members about the unknown group "h". -/
def gmC10 : GroupMetadata := ⟨"h", []⟩

/-- C10 counterexample: an empty-members GroupMetadata about the unknown,
non-internal group "h" is dropped with the register unchanged, but only
the empty-members debug line is logged and no warning, contradicting the
claim's "with a logged warning". -/
theorem c10_unknown_gm_counterexample :
    (process_group_metadata gmC10 []).1 = [] ∧
    gmC10.group ≠ KOMMITTED_CONSUMER_OFFSETS_CONSUMER ∧
    alookup ([] : Register) gmC10.group = none ∧
    (process_group_metadata gmC10 []).2 = [debugNoMembersGM] ∧
    warnUnknownGroupGM ∉ (process_group_metadata gmC10 []).2 := by
  decide

/-- C10 amended: a GroupMetadata event about a group unknown to the
register leaves the register unchanged; the unknown-group warning is logged
exactly when members is non-empty and the group is not the internal
consumer's own, the drop is silent when members is non-empty and the group
is internal, and an empty-members event is dropped earlier with only a
debug line, before the unknown-group check. -/
theorem c10_unknown_gm_amended (gm : GroupMetadata) (st : Register)
    (h : alookup st gm.group = none) :
    (process_group_metadata gm st).1 = st ∧
    (gm.members ≠ [] → gm.group ≠ KOMMITTED_CONSUMER_OFFSETS_CONSUMER →
      (process_group_metadata gm st).2 = [warnUnknownGroupGM]) ∧
    (gm.members ≠ [] → gm.group = KOMMITTED_CONSUMER_OFFSETS_CONSUMER →
      (process_group_metadata gm st).2 = []) ∧
    (gm.members = [] →
      (process_group_metadata gm st).2 = [debugNoMembersGM]) := by
  unfold process_group_metadata
  by_cases hm : gm.members = []
  · simp [hm]
  · have hiso : gm.members.isEmpty = false := by
      cases hmm : gm.members <;> simp_all
    by_cases hk : gm.group = KOMMITTED_CONSUMER_OFFSETS_CONSUMER
    · rw [hk] at h
      simp [hiso, h, hk, hm]
    · simp [hiso, h, hk, hm]

/-- GroupMetadata with one member about the unknown group "h". -/
def gmC10b : GroupMetadata := ⟨"h", [⟨"m", "c", "H", [], []⟩]⟩

/-- C10 witness: the amended theorem applied to an empty register and a
non-empty-members event about unknown group "h". -/
theorem c10_unknown_gm_amended_witness :
    (process_group_metadata gmC10b []).1 = [] ∧
    (process_group_metadata gmC10b []).2 = [warnUnknownGroupGM] := by
  have h := c10_unknown_gm_amended gmC10b [] (by rfl)
  exact ⟨h.1, h.2.1 (by decide) (by decide)⟩

/-- C3: after an Import pass with a duplicate-free known-group listing,
every group name outside the known set is gone from the register; every
known, resolvable group is present with its Group set, an entry with the
owning member for exactly the partitions of its members-by-partition map,
each such entry preserving the lag the register previously held for that
group and partition (none for a new group or a newly owned partition), and
no entry for any partition no longer owned. -/
theorem c3_import_pass (cg : CGRegisterView) (st : Register)
    (hnd : cg.known_groups.Nodup) :
    (∀ g, g ∉ cg.known_groups →
      alookup (process_consumer_groups cg st) g = none) ∧
    (∀ g gwm, g ∈ cg.known_groups → cg.get_group g = some gwm →
      ∃ gwl',
        alookup (process_consumer_groups cg st) g = some gwl' ∧
        gwl'.group = gwm.group ∧
        (∀ tp m, alookup (membersByTp gwm.members) tp = some m →
          ∃ lwo', alookup gwl'.lag_by_topic_partition tp = some lwo' ∧
            lwo'.owner = some m ∧
            lwo'.lag = (alookup st g).bind
              (fun gwl => (alookup gwl.lag_by_topic_partition tp).bind
                (fun lwo => lwo.lag))) ∧
        (∀ tp, alookup (membersByTp gwm.members) tp = none →
          alookup gwl'.lag_by_topic_partition tp = none)) := by
  constructor
  · intro g hg
    unfold process_consumer_groups
    rw [alookup_filter_key (fun k => cg.known_groups.contains k)]
    have hc : cg.known_groups.contains g = false := by simpa using hg
    rw [hc]
    simp
  · intro g gwm hmem hget
    unfold process_consumer_groups
    rw [alookup_filter_key (fun k => cg.known_groups.contains k)]
    have hc : cg.known_groups.contains g = true := by simpa using hmem
    rw [hc, if_pos rfl,
      foldl_pcgStep_mem cg cg.known_groups st g gwm hnd hmem hget]
    cases hst : alookup st g with
    | none =>
      refine ⟨freshGwl gwm, rfl, rfl, ?_, ?_⟩
      · intro tp m hm
        refine ⟨⟨none, some m⟩, ?_, rfl, rfl⟩
        rw [alookup_freshGwl, hm]
        rfl
      · intro tp hmn
        rw [alookup_freshGwl, hmn]
        rfl
    | some gwl =>
      refine ⟨updateGwl gwm gwl, rfl, rfl, ?_, ?_⟩
      · intro tp m hm
        rw [alookup_updateGwl, hm]
        cases hold : alookup gwl.lag_by_topic_partition tp with
        | some lwo =>
          refine ⟨⟨lwo.lag, some m⟩, rfl, rfl, ?_⟩
          simp [hold]
        | none =>
          refine ⟨⟨none, some m⟩, rfl, rfl, ?_⟩
          simp [hold]
      · intro tp hmn
        rw [alookup_updateGwl, hmn]

/-- GroupWithMembers of the C3 witness: one member owning ("t",0). -/
def gwmC3 : GroupWithMembers :=
  ⟨⟨"g", "", "", ""⟩, [("m1", ⟨⟨"m1", "c", "h"⟩, [⟨"t", 0⟩]⟩)]⟩

/-- ConsumerGroupsRegister view of the C3 witness: only group "g" known. -/
def cgC3 : CGRegisterView :=
  ⟨["g"], fun s => if s = "g" then some gwmC3 else none⟩

/-- C3 witness: the theorem applied to the concrete view and register. -/
theorem c3_import_pass_witness :
    ∃ gwl',
      alookup (process_consumer_groups cgC3 stC5) "g" = some gwl' ∧
      gwl'.group = gwmC3.group ∧
      (∀ tp m, alookup (membersByTp gwmC3.members) tp = some m →
        ∃ lwo', alookup gwl'.lag_by_topic_partition tp = some lwo' ∧
          lwo'.owner = some m ∧
          lwo'.lag = (alookup stC5 "g").bind
            (fun gwl => (alookup gwl.lag_by_topic_partition tp).bind
              (fun lwo => lwo.lag))) ∧
      (∀ tp, alookup (membersByTp gwmC3.members) tp = none →
        alookup gwl'.lag_by_topic_partition tp = none) :=
  (c3_import_pass cgC3 stC5 (by decide)).2 "g" gwmC3 (by decide) (by rfl)

/-- C7: a Refresh pass keeps every group and every entry in place, and when
it rewrites an entry's lag the entry's lag was stale and the watermark
fetch succeeded, the new lag keeps offset and offset_timestamp, its
timestamp becomes the current instant, and offset_lag and time_lag are the
estimator results with 0 / zero on failure; entries it does not rewrite are
untouched. -/
theorem c7_refresh_frame (now : Int) (po : PoReg) (st : Register) :
    List.Forall₂
      (fun ge ge' => ge'.1 = ge.1 ∧ ge'.2.group = ge.2.group ∧
        List.Forall₂
          (fun e e' => e'.1 = e.1 ∧ RefreshedVal now po e.1 e.2 e'.2)
          ge.2.lag_by_topic_partition ge'.2.lag_by_topic_partition)
      st (update_stale_lags now po st) := by
  unfold update_stale_lags
  induction st with
  | nil => exact List.Forall₂.nil
  | cons p rest ih =>
    rw [List.map_cons]
    exact List.Forall₂.cons
      ⟨rfl, rfl, updateEntriesCode_forall₂ now po p.2.lag_by_topic_partition⟩
      ih

/-- Boolean check of the timestamp invariant on one entry. -/
def lagOk (lwo : LagWithOwner) : Bool :=
  match lwo.lag with
  | some l => decide (l.offset_timestamp ≤ l.timestamp)
  | none => true

theorem alookup_mem {α β : Type} [DecidableEq α] {l : List (α × β)}
    {a : α} {v : β} (h : alookup l a = some v) : (a, v) ∈ l := by
  induction l with
  | nil => simp [alookup] at h
  | cons p rest ih =>
    obtain ⟨k, w⟩ := p
    rw [alookup_cons] at h
    by_cases hka : k = a
    · rw [if_pos hka] at h
      cases h
      subst hka
      exact List.mem_cons_self _ _
    · rw [if_neg hka] at h
      exact List.mem_cons_of_mem _ (ih h)

theorem timestampInv_of_all (st : Register)
    (h : st.all
      (fun e => e.2.lag_by_topic_partition.all (fun e2 => lagOk e2.2))
        = true) :
    TimestampInv st := by
  intro g gwl hg tp lwo htp l hl
  have h1 := (List.all_eq_true.mp h) (g, gwl) (alookup_mem hg)
  have h2 := (List.all_eq_true.mp h1) (tp, lwo) (alookup_mem htp)
  have h3 : lagOk lwo = true := h2
  unfold lagOk at h3
  rw [hl] at h3
  exact of_decide_eq_true h3

/-- C8: an OffsetCommit builds its lag with timestamp and offset_timestamp
both equal to the commit timestamp, and the invariant "every lag entry has
timestamp at least offset_timestamp" is preserved by every sequence of
OffsetCommit and Refresh steps (a Refresh rewrites a lag only when it is
stale, so its new timestamp, the current instant, is past
offset_timestamp). -/
theorem c8_timestamp_invariant :
    (∀ (po : PoReg) (oc : OffsetCommit) (tp : TopicPartition),
      (buildLag po oc tp).1.offset_timestamp = oc.commit_timestamp ∧
      (buildLag po oc tp).1.timestamp = oc.commit_timestamp) ∧
    (∀ (events : List LEvent) (st : Register), TimestampInv st →
      TimestampInv (events.foldl stepEvent st)) := by
  refine ⟨fun po oc tp => buildLag_timestamps po oc tp, ?_⟩
  intro events st h
  refine foldl_preserves TimestampInv stepEvent ?_ events st h
  intro s e hs
  cases e with
  | commit po oc => exact timestampInv_commit po oc s hs
  | refresh po now => exact timestampInv_refresh now po s hs

/-- C8 witness: the invariant holds after a commit then a refresh applied
to a concrete register that satisfies it. -/
theorem c8_timestamp_invariant_witness :
    TimestampInv
      ([LEvent.commit poOk ocC6, LEvent.refresh poOk 100].foldl
        stepEvent stC5) :=
  c8_timestamp_invariant.2 [LEvent.commit poOk ocC6, LEvent.refresh poOk 100]
    stC5 (timestampInv_of_all stC5 (by decide))

end Kcl
